import Mathlib

/-!
Shallow embedding of the core of the `telegram-mirror-bot` repository
(`src/link_rules.py`, `src/bot.py`, `src/storage.py`) and proofs about it.

Conventions of the embedding:
* Strings are handled as `List Char` internally and as `String`/`Option String`
  at the outer boundaries (Python `str` arguments that may also be `None`).
* Python regular expressions are modelled by the fragment the program's
  observable properties exercise: `Pattern.lit q` stands for a pattern that
  compiles and matches the literal character sequence `q` case-insensitively
  (e.g. the Python pattern `a\.com` is `Pattern.lit "a.com".data`), and
  `Pattern.bad` stands for a pattern whose compilation raises `re.error`.
  Case-insensitivity is modelled on ASCII via `Char.toLower`, and Python's
  `\s` by the six ASCII whitespace characters.
* Fallible Python code is embedded in `Except`: an uncaught Python exception
  is an `Except.error` value reaching the function's caller.
-/

/-- ASCII whitespace, the model of Python's regex class `\s`. -/
def wsChar (c : Char) : Bool :=
  c == ' ' || c == '\t' || c == '\n' || c == '\r' || c == '\x0b' || c == '\x0c'

/-- case-insensitive "p is a leading part of s" on character lists. -/
def startsWithCI : List Char → List Char → Bool
  | [], _ => true
  | _ :: _, [] => false
  | p :: ps, c :: cs => (p.toLower == c.toLower) && startsWithCI ps cs

/-- case-sensitive "p is a leading part of s" on character lists. -/
def startsWithL : List Char → List Char → Bool
  | [], _ => true
  | _ :: _, [] => false
  | p :: ps, c :: cs => (p == c) && startsWithL ps cs

/-- case-insensitive substring test: the model of
`re.search(pat, s, flags=re.IGNORECASE)` for a literal pattern `pat`. -/
def containsCI (q : List Char) : List Char → Bool
  | [] => startsWithCI q []
  | c :: cs => startsWithCI q (c :: cs) || containsCI q cs

/-- fuel-indexed worker for `replaceCI`; every step consumes at least one
character, so fuel `s.length + 1` never runs out. -/
def replaceCIAux (q rep : List Char) : Nat → List Char → List Char
  | 0, s => s
  | _ + 1, [] => if q.isEmpty then rep else []
  | fuel + 1, c :: cs =>
    if q.isEmpty then rep ++ c :: replaceCIAux q rep fuel cs
    else if startsWithCI q (c :: cs) then rep ++ replaceCIAux q rep fuel (cs.drop (q.length - 1))
    else c :: replaceCIAux q rep fuel cs

/-- case-insensitive replacement of every non-overlapping occurrence of `q`
by `rep`, scanning left to right: the model of
`re.sub(pat, rep, s, flags=re.IGNORECASE)` for a literal pattern `pat`
(an empty pattern matches at every position, as in Python). -/
def replaceCI (q rep : List Char) (s : List Char) : List Char :=
  replaceCIAux q rep (s.length + 1) s

/-- a compiled-or-not Python regex pattern, restricted to the fragment the
program's properties exercise: `lit q` compiles and denotes the literal
sequence `q` matched case-insensitively, `bad` raises `re.error` when used. -/
inductive Pattern where
  | lit (q : List Char)
  | bad (src : List Char)
deriving DecidableEq

/-- one element of the `rules` list that `replace_links_in_html` expects:
a `(pattern, new_url, new_text_or_None)` triple (see the comment above
`replace_links_in_html` in `src/link_rules.py`). -/
structure LinkRule where
  pattern : Pattern
  url_repl : List Char
  text_repl : Option (List Char)
deriving DecidableEq

/-! ### Model of `A_TAG_RE` (src/link_rules.py lines 5-8)

`A_TAG_RE = re.compile(r'(<a\s+[^>]*?href=")([^"]+)(".*?>)(.*?)(</a>)', re.IGNORECASE | re.DOTALL)`.
The scanner below decomposes a string into the non-overlapping, leftmost
matches of this pattern (their five groups, original casing preserved) and
the characters between them, exactly as `A_TAG_RE.sub` visits them. -/

/-- the literal chars of the regex piece `href="`. -/
def hqPat : List Char := ['h', 'r', 'e', 'f', '=', '"']

/-- the literal chars of the regex piece `</a>`. -/
def closeAPat : List Char := ['<', '/', 'a', '>']

/-- every split `s = gap ++ cand` where `cand` begins with `href="`
(case-insensitively) and `gap` contains no `>`, in left-to-right order:
the candidate positions the lazy `[^>]*?href="` can reach, earliest first. -/
def hrefSplits : List Char → List (List Char × List Char)
  | [] => []
  | c :: cs =>
    let here : List (List Char × List Char) :=
      if startsWithCI hqPat (c :: cs) then [(([] : List Char), c :: cs)] else []
    let there : List (List Char × List Char) :=
      if c == '>' then [] else (hrefSplits cs).map (fun p => (c :: p.1, p.2))
    here ++ there

/-- splits `s = a ++ [x] ++ b` at the first occurrence of `x`. -/
def splitAtChar (x : Char) : List Char → Option (List Char × List Char)
  | [] => none
  | c :: cs =>
    if c == x then some ([], cs)
    else (splitAtChar x cs).map (fun p => (c :: p.1, p.2))

/-- splits `s = t ++ u` at the earliest position where `u` begins with `pat`
case-insensitively (the lazy `.*?` followed by a literal). -/
def findCISub (pat : List Char) : List Char → Option (List Char × List Char)
  | [] => if pat.isEmpty then some ([], []) else none
  | c :: cs =>
    if startsWithCI pat (c :: cs) then some ([], c :: cs)
    else (findCISub pat cs).map (fun p => (c :: p.1, p.2))

/-- attempts groups 2-5 of `A_TAG_RE` on a candidate suffix that begins with
`href="`: the non-empty `([^"]+)` href, the `(".*?>)` middle up to the first
`>`, the lazy `(.*?)` inner text, the matched `(</a>)`, and the remainder of
the string after the whole match. -/
def tryTail (cand : List Char) : Option (List Char × List Char × List Char × List Char × List Char) :=
  let afterHq := cand.drop 6
  let hrefv := afterHq.takeWhile (fun c => c != '"')
  let rest0 := afterHq.dropWhile (fun c => c != '"')
  if hrefv.isEmpty then none
  else
    match rest0 with
    | [] => none
    | _ :: rest1 =>
      match splitAtChar '>' rest1 with
      | none => none
      | some (a, b) =>
        match findCISub closeAPat b with
        | none => none
        | some (t, u) => some (hrefv, '"' :: a ++ ['>'], t, u.take 4, u.drop 4)

/-- applies `f` to the elements in order and returns its first `some` result. -/
def firstSome (f : α → Option β) : List α → Option β
  | [] => none
  | x :: xs => match f x with | some b => some b | none => firstSome f xs

/-- attempts a match of `A_TAG_RE` anchored at the head of `s`: requires
`<`, `a` (case-insensitive), one whitespace character (the mandatory `\s+`),
then tries the reachable `href="` candidates in order, backtracking to the
next candidate when the rest of the pattern fails.  Returns the five groups
as matched (original casing) and the rest of the string after the match. -/
def tryATag (s : List Char) : Option (List Char × List Char × List Char × List Char × List Char × List Char) :=
  match s with
  | '<' :: a :: w :: rest =>
    if (a.toLower == 'a') && wsChar w then
      firstSome
        (fun gc =>
          match tryTail gc.2 with
          | none => none
          | some (hrefv, mid, text, suf, rem) =>
            some ('<' :: a :: (gc.1 ++ gc.2.take 6), hrefv, mid, text, suf, rem))
        (hrefSplits (w :: rest))
    else none
  | _ => none

/-- a piece of the input as `A_TAG_RE.sub` sees it: either a character run
outside every match, or the five groups of one match. -/
inductive ASeg where
  | chunk (s : List Char)
  | tag (pre href mid text suf : List Char)
deriving DecidableEq

/-- fuel-indexed scan for the non-overlapping leftmost matches of
`A_TAG_RE`; the fuel (initially the string length) strictly exceeds the
number of scanning steps, every step consuming at least one character. -/
def aTagScanAux : Nat → List Char → List ASeg
  | 0, s => if s.isEmpty then [] else [ASeg.chunk s]
  | _ + 1, [] => []
  | fuel + 1, c :: cs =>
    match tryATag (c :: cs) with
    | some (pre, hrefv, mid, text, suf, rem) =>
      ASeg.tag pre hrefv mid text suf :: aTagScanAux fuel rem
    | none => ASeg.chunk [c] :: aTagScanAux fuel cs

/-- decomposition of a string into `A_TAG_RE` matches and the text between. -/
def aTagScan (s : List Char) : List ASeg := aTagScanAux s.length s

/-! ### Model of the raw-URL pattern (src/link_rules.py line 44)

`re.sub(r'(https?://[^\s<]+)', repl_raw, html)` — note: no `re.IGNORECASE`
flag on this one, the protocol is matched case-sensitively. -/

/-- a character the class `[^\s<]` accepts. -/
def rawChar (c : Char) : Bool := !(wsChar c) && c != '<'

/-- the literal chars of `http://`. -/
def httpPat : List Char := ['h', 't', 't', 'p', ':', '/', '/']

/-- the literal chars of `https://`. -/
def httpsPat : List Char := ['h', 't', 't', 'p', 's', ':', '/', '/']

/-- does a match of `https?://[^\s<]+` start at the head of `s`? The `+`
requires at least one `[^\s<]` character after the protocol. -/
def rawStartsHere (s : List Char) : Bool :=
  (startsWithL httpsPat s && (match s.drop 8 with | c :: _ => rawChar c | [] => false))
  || (startsWithL httpPat s && (match s.drop 7 with | c :: _ => rawChar c | [] => false))

/-- a piece of the input as the raw-URL `re.sub` sees it: either a character
run outside every match, or one matched bare-URL token. -/
inductive RSeg where
  | chunk (s : List Char)
  | url (tok : List Char)
deriving DecidableEq

/-- fuel-indexed scan for the non-overlapping leftmost matches of
`https?://[^\s<]+`. -/
def rawScanAux : Nat → List Char → List RSeg
  | 0, s => if s.isEmpty then [] else [RSeg.chunk s]
  | _ + 1, [] => []
  | fuel + 1, c :: cs =>
    if rawStartsHere (c :: cs) then
      RSeg.url ((c :: cs).takeWhile rawChar) :: rawScanAux fuel ((c :: cs).dropWhile rawChar)
    else RSeg.chunk [c] :: rawScanAux fuel cs

/-- decomposition of a string into bare-URL tokens and the text between. -/
def rawScan (s : List Char) : List RSeg := rawScanAux s.length s

/-! ### The link rewriter (src/link_rules.py lines 11-45) -/

/-- the body of the rule loop inside `replace_a_tag` (lines 19-27): for a
rule `(pat, url_repl, text_repl)`, `re.search(pat, href, re.IGNORECASE)` is
tested against the *original* `href`; on a match `new_href` becomes
`re.sub(pat, url_repl, href, re.IGNORECASE)` — again on the original
`href` — and `new_text` becomes `text_repl` when that is not `None`.
A pattern raising `re.error` is skipped (`except re.error: pass`). -/
def ruleStep (href : List Char) (acc : List Char × List Char) (r : LinkRule) : List Char × List Char :=
  match r.pattern with
  | .bad _ => acc
  | .lit q =>
    if containsCI q href then
      (replaceCI q r.url_repl href, match r.text_repl with | some t => t | none => acc.2)
    else acc

/-- the full rule loop of `replace_a_tag`, started from
`new_href = href; new_text = text`. -/
def anchorLoop (rules : List LinkRule) (href text : List Char) : List Char × List Char :=
  rules.foldl (ruleStep href) (href, text)

/-- `replace_a_tag` (lines 15-28) lifted to one scanned segment: a match is
rebuilt as `f"{prefix}{new_href}{mid}{new_text}{suffix}"`, text outside
matches passes through `A_TAG_RE.sub` untouched. -/
def replace_a_tag (rules : List LinkRule) : ASeg → List Char
  | .chunk s => s
  | .tag pre href mid text suf =>
    let p := anchorLoop rules href text
    pre ++ p.1 ++ mid ++ p.2 ++ suf

/-- the body of the rule loop inside `repl_raw` (lines 37-41):
`new_val = re.sub(pat, rep, new_val, re.IGNORECASE)` — cumulative on
`new_val`, no match guard; a pattern raising `re.error` is skipped. -/
def subStep (v : List Char) (r : LinkRule) : List Char :=
  match r.pattern with
  | .bad _ => v
  | .lit q => replaceCI q r.url_repl v

/-- `repl_raw` (lines 34-42) lifted to one scanned segment. -/
def repl_raw (rules : List LinkRule) : RSeg → List Char
  | .chunk s => s
  | .url tok => rules.foldl subStep tok

/-- pass 1 of `replace_links_in_html` (line 31): `A_TAG_RE.sub(replace_a_tag, html)`. -/
def anchorPass (rules : List LinkRule) (s : List Char) : List Char :=
  ((aTagScan s).map (replace_a_tag rules)).flatten

/-- pass 2 of `replace_links_in_html` (line 44):
`re.sub(r'(https?://[^\s<]+)', repl_raw, html)` on the output of pass 1. -/
def rawPass (rules : List LinkRule) (s : List Char) : List Char :=
  ((rawScan s).map (repl_raw rules)).flatten

/-- `replace_links_in_html(html, rules)` (lines 11-45).  `html` is `Option
String` because the Python guard `if not html or not rules: return html or ""`
also accepts `None`. -/
def replace_links_in_html (html : Option String) (rules : List LinkRule) : String :=
  let h := html.getD ""
  if h = "" ∨ rules = [] then h
  else String.mk (rawPass rules (anchorPass rules h.data))

/-! ### Dynamically-typed rule tuples and the pipeline (src/bot.py)

`get_rules` (bot.py lines 189-191) builds `[(r[1], r[2]) for r in rows]` —
*pairs* — from the 4-column rows of `list_link_rules`, while
`replace_links_in_html` unpacks each rule as a *triple* in the `for`
headers of `replace_a_tag` and `repl_raw` (link_rules.py lines 19 and 37),
*outside* the `try:` blocks, whose `except re.error` would not catch the
`ValueError` anyway.  The embedding keeps the tuple length dynamic. -/

/-- a Python tuple handed to `replace_links_in_html` as one rule: either the
pair produced by `get_rules` or the triple the rewriter's comment documents. -/
inductive RuleTuple where
  | pair (pat : Pattern) (rep : List Char)
  | triple (pat : Pattern) (rep : List Char) (txt : Option (List Char))
deriving DecidableEq

/-- an uncaught Python exception escaping a call. -/
inductive PyErr where
  | valueError
deriving DecidableEq

/-- tuple unpacking `pat, url_repl, text_repl = r`: a 2-tuple raises
`ValueError: not enough values to unpack (expected 3, got 2)`. -/
def unpack3 : RuleTuple → Except PyErr (Pattern × List Char × Option (List Char))
  | .pair _ _ => .error .valueError
  | .triple p u t => .ok (p, u, t)

/-- the triple a well-formed `LinkRule` would be passed as. -/
def LinkRule.toTuple (r : LinkRule) : RuleTuple :=
  .triple r.pattern r.url_repl r.text_repl

/-- left-to-right effectful fold over `Except`, stopping at the first raised
exception, as a Python `for` loop whose body may raise. -/
def foldlExcept (f : σ → α → Except ε σ) : σ → List α → Except ε σ
  | s, [] => .ok s
  | s, a :: as =>
    match f s a with
    | .error e => .error e
    | .ok s2 => foldlExcept f s2 as

/-- left-to-right effectful map over `Except`, stopping at the first raised
exception, as `re.sub` does when its callback raises at some match. -/
def mapExcept (f : α → Except ε β) : List α → Except ε (List β)
  | [] => .ok []
  | a :: as =>
    match f a with
    | .error e => .error e
    | .ok b =>
      match mapExcept f as with
      | .error e => .error e
      | .ok bs => .ok (b :: bs)

/-- the rule loop of `replace_a_tag` over dynamic tuples: the unpacking in
the `for` header may raise, the body is the `try:`-protected `ruleStep`. -/
def anchorLoopE (rules : List RuleTuple) (href text : List Char) : Except PyErr (List Char × List Char) :=
  foldlExcept
    (fun acc r =>
      match unpack3 r with
      | .error e => .error e
      | .ok (p, u, t) => .ok (ruleStep href acc ⟨p, u, t⟩))
    (href, text) rules

/-- `replace_a_tag` over dynamic tuples, per scanned segment. -/
def replace_a_tag_E (rules : List RuleTuple) : ASeg → Except PyErr (List Char)
  | .chunk s => .ok s
  | .tag pre href mid text suf =>
    match anchorLoopE rules href text with
    | .error e => .error e
    | .ok (h, t) => .ok (pre ++ h ++ mid ++ t ++ suf)

/-- `repl_raw` over dynamic tuples, per scanned segment. -/
def repl_raw_E (rules : List RuleTuple) : RSeg → Except PyErr (List Char)
  | .chunk s => .ok s
  | .url tok =>
    foldlExcept
      (fun v r =>
        match unpack3 r with
        | .error e => .error e
        | .ok (p, u, t) => .ok (subStep v ⟨p, u, t⟩))
      tok rules

/-- `replace_links_in_html` over dynamic rule tuples: the value the Python
call computes, or the exception it raises to its caller. -/
def replace_links_in_html_E (html : Option String) (rules : List RuleTuple) : Except PyErr String :=
  let h := html.getD ""
  if h = "" ∨ rules = [] then .ok h
  else
    (mapExcept (replace_a_tag_E rules) (aTagScan h.data)).bind (fun segs1 =>
      (mapExcept (repl_raw_E rules) (rawScan segs1.flatten)).bind (fun segs2 =>
        .ok (String.mk segs2.flatten)))

/-! ### Storage (src/storage.py) -/

/-- one row of the `link_rules` table as `list_link_rules` returns it:
`(id, pattern, replacement, text_repl)`, ordered by id ascending. -/
structure StoredRule where
  rid : Int
  pattern : Pattern
  replacement : List Char
  text_repl : Option (List Char)
deriving DecidableEq

/-- `get_rules` (bot.py lines 189-191): `[(r[1], r[2]) for r in rows]` —
keeps pattern and replacement, drops `text_repl`, and yields 2-tuples. -/
def get_rules (rows : List StoredRule) : List RuleTuple :=
  rows.map (fun r => RuleTuple.pair r.pattern r.replacement)

/-- the `mappings` table as the list of its `(source_tg_id, dest_tg_id)`
rows in insertion order; the `UNIQUE(source_tg_id, dest_tg_id)` constraint
holds in every state the operations below produce. -/
def Mappings := List (Int × Int)

/-- `add_mapping` (storage.py lines 57-63): `INSERT OR IGNORE` under the
`UNIQUE(source_tg_id, dest_tg_id)` constraint — a duplicate pair inserts
nothing. -/
def add_mapping (db : List (Int × Int)) (source_tg_id dest_tg_id : Int) : List (Int × Int) :=
  if (source_tg_id, dest_tg_id) ∈ db then db else db ++ [(source_tg_id, dest_tg_id)]

/-- `remove_mapping` (storage.py lines 65-71). -/
def remove_mapping (db : List (Int × Int)) (source_tg_id dest_tg_id : Int) : List (Int × Int) :=
  db.filter (fun p => !(p.1 == source_tg_id && p.2 == dest_tg_id))

/-- `list_mappings_for_source` (storage.py lines 73-77): the destination ids
of the rows whose source matches, in insertion order. -/
def list_mappings_for_source (db : List (Int × Int)) (source_tg_id : Int) : List Int :=
  (db.filter (fun p => p.1 == source_tg_id)).map Prod.snd

/-! ### Fan-out (src/bot.py lines 194-201) -/

/-- the `for dest in dest_ids` loop of `mirror_to_dests`: each destination
gets exactly one `send_fn` call inside `try: ... except Exception: pass`;
the outcome is recorded in the returned trace and absorbed — the return
type carries no exception, so none can reach the caller. -/
def fanoutLoop (send : Int → Except ε Unit) : List Int → List (Int × Except ε Unit)
  | [] => []
  | d :: rest => (d, send d) :: fanoutLoop send rest

/-- `mirror_to_dests(source_chat_id, send_fn)`: resolves the destinations
from the mapping store and runs the fan-out loop over them. -/
def mirror_to_dests (db : List (Int × Int)) (source_chat_id : Int)
    (send : Int → Except ε Unit) : List (Int × Except ε Unit) :=
  fanoutLoop send (list_mappings_for_source db source_chat_id)

/-! ### Content dispatch (src/bot.py lines 204-343) -/

/-- one option of a Telegram poll as aiogram presents it (`o.text`). -/
structure PollOption where
  text : String
deriving DecidableEq

/-- the fields of `m.poll` that `on_channel_post` reads. -/
structure Poll where
  question : String
  options : List PollOption
  is_anonymous : Bool
  allows_multiple_answers : Bool
  type : String
  correct_option_id : Option Int
  explanation : Option String
deriving DecidableEq

/-- the arguments of the `bot.send_poll` call (bot.py lines 300-309),
minus the destination chat id. -/
structure PollSpec where
  question : String
  options : List String
  is_anonymous : Bool
  allows_multiple_answers : Bool
  type : String
  correct_option_id : Option Int
  explanation : Option String
deriving DecidableEq

/-- the poll branch of `on_channel_post` (bot.py lines 297-311): the poll is
recreated field by field; `correct_option_id` and `explanation` are passed
through only when `m.poll.type == "quiz"`, else `None`. -/
def pollSendSpec (p : Poll) : PollSpec :=
  { question := p.question
    options := p.options.map PollOption.text
    is_anonymous := p.is_anonymous
    allows_multiple_answers := p.allows_multiple_answers
    type := p.type
    correct_option_id := if p.type = "quiz" then p.correct_option_id else none
    explanation := if p.type = "quiz" then p.explanation else none }

/-- the duck-typed content of an inbound post, one constructor per
`ContentType` branch of `on_channel_post`; media carry the file ids and the
optional `caption_html` the handler reads. -/
inductive Content where
  | text (html_text : String)
  | photo (sizes : List String) (caption_html : Option String)
  | video (file_id : String) (caption_html : Option String)
  | animation (file_id : String) (caption_html : Option String)
  | document (file_id : String) (caption_html : Option String)
  | audio (file_id : String) (caption_html : Option String)
  | voice (file_id : String) (caption_html : Option String)
  | video_note (file_id : String)
  | poll (p : Poll)
  | other
deriving DecidableEq

/-- what one `bot.send_*` / `bot.copy_message` call carries, minus the
destination chat id: the dispatcher's decision per content kind.  The
`message` variant records whether `disable_web_page_preview` was passed
(`some b`) or left to the transport default (`none`). -/
inductive SendSpec where
  | message (text : String) (disable_web_page_preview : Option Bool)
  | photo (file_id : String) (caption : String)
  | video (file_id : String) (caption : String)
  | animation (file_id : String) (caption : String)
  | document (file_id : String) (caption : String)
  | audio (file_id : String) (caption : String)
  | voice (file_id : String) (caption : String)
  | video_note (file_id : String)
  | poll (spec : PollSpec)
  | copy
deriving DecidableEq

/-- `transform_html` as defined inside both handlers (bot.py lines 230-231
and 331-332): `replace_links_in_html(html_text or "", rules)`. -/
def transform_html (rules : List LinkRule) (html_text : Option String) : String :=
  replace_links_in_html (some (html_text.getD "")) rules

/-- the marker prepended to edited text posts (bot.py line 338). -/
def updatedMarker : String := "🔁 <i>Оновлено</i>\n\n"

/-- the content-type dispatch of `on_channel_post` (bot.py lines 234-318)
reduced to the send specification it builds for one destination; `m.photo[-1]`
is the last element of the size list. -/
def dispatchNew (rules : List LinkRule) : Content → SendSpec
  | .text t => .message (transform_html rules (some t)) (some false)
  | .photo sizes c => .photo (sizes.getLastD "") (transform_html rules c)
  | .video f c => .video f (transform_html rules c)
  | .animation f c => .animation f (transform_html rules c)
  | .document f c => .document f (transform_html rules c)
  | .audio f c => .audio f (transform_html rules c)
  | .voice f c => .voice f (transform_html rules c)
  | .video_note f => .video_note f
  | .poll p => .poll (pollSendSpec p)
  | .other => .copy

/-- the dispatch of `on_edited_channel_post` (bot.py lines 322-343): a text
edit is re-sent as a new message with the updated-marker prepended and no
`disable_web_page_preview` argument; every other kind falls through to
`on_channel_post(m)` unchanged. -/
def dispatchEdited (rules : List LinkRule) : Content → SendSpec
  | .text t => .message (updatedMarker ++ transform_html rules (some t)) none
  | c => dispatchNew rules c

/-! ### The pipeline entry point for a text post (src/bot.py lines 204-240)

With the rule list produced by `get_rules`, `transform_html` runs
`replace_links_in_html(m.html_text or "", rules)` before `mirror_to_dests`;
nothing catches an exception raised there, so it escapes `on_channel_post`
to the aiogram dispatcher. -/

/-- `transform_html` as `on_channel_post` actually executes it: over the
dynamic pair tuples coming from `get_rules`. -/
def transform_html_dyn (rows : List StoredRule) (html_text : Option String) : Except PyErr String :=
  replace_links_in_html_E (some (html_text.getD "")) (get_rules rows)

/-- `on_channel_post` on a plain-text post: resolve destinations (early
return when none), rewrite the text, then fan out.  The `Except` layer is
the exception channel to the platform collaborator. -/
def on_channel_post_text (db : List (Int × Int)) (rows : List StoredRule)
    (chat_id : Int) (html_text : Option String)
    (send : Int → String → Except ε Unit) :
    Except PyErr (List (Int × Except ε Unit)) :=
  let dest_ids := list_mappings_for_source db chat_id
  if dest_ids = [] then .ok []
  else
    match transform_html_dyn rows html_text with
    | .error e => .error e
    | .ok html => .ok (fanoutLoop (fun d => send d html) dest_ids)

/-! ### Spec-side characterisations -/

/-- does `re.search(pat, href, re.IGNORECASE)` succeed without raising? -/
def ruleMatches (href : List Char) (r : LinkRule) : Bool :=
  match r.pattern with
  | .bad _ => false
  | .lit q => containsCI q href

/-- the url substitution of one rule applied to `href`. -/
def applyUrl (href : List Char) (r : LinkRule) : List Char :=
  match r.pattern with
  | .bad _ => href
  | .lit q => replaceCI q r.url_repl href

/-- the href the spec's words say the anchor pass should leave: the result
of the *last* rule whose pattern matches the original href, substituted into
the original href (the loop discards earlier matching rules' outputs). -/
def lastMatchHref (rules : List LinkRule) (href : List Char) : List Char :=
  match (rules.filter (ruleMatches href)).getLast? with
  | some r => applyUrl href r
  | none => href

/-- the display text after the anchor pass: the text replacement of the last
matching rule that defines one, else the original text. -/
def lastMatchText (rules : List LinkRule) (href text : List Char) : List Char :=
  match (rules.filter (fun r => ruleMatches href r && r.text_repl.isSome)).getLast? with
  | some r => r.text_repl.getD text
  | none => text

/-- Modelled from the claim's words (cumulative composition): each matching
rule's substitution applied "to the output of the previous one". -/
def cumulativeHref (rules : List LinkRule) (href : List Char) : List Char :=
  rules.foldl
    (fun h r =>
      match r.pattern with
      | .bad _ => h
      | .lit q => if containsCI q h then replaceCI q r.url_repl h else h)
    href

/-- a rule with its display-text replacement erased. -/
def clearTextRepl (r : LinkRule) : LinkRule :=
  ⟨r.pattern, r.url_repl, none⟩

/-! ### Helper lemmas -/

/-- the trace of the fan-out loop visits exactly the given destinations. -/
theorem fanoutLoop_map_fst (send : Int → Except ε Unit) (dests : List Int) :
    (fanoutLoop send dests).map Prod.fst = dests := by
  induction dests with
  | nil => rfl
  | cons d rest ih => simp [fanoutLoop, ih]

/-! ### Claims -/

/-- C6: for every markup string and rule list, if the markup is empty (or
null/absent) or the rule list is empty, `replace_links_in_html` returns the
input markup unchanged — the empty string when the markup is null/absent. -/
theorem c6_rewrite_identity (html : Option String) (rules : List LinkRule)
    (h : html.getD "" = "" ∨ rules = []) :
    replace_links_in_html html rules = html.getD "" := by
  simp only [replace_links_in_html]
  exact if_pos h

/-- witness for `c6_rewrite_identity` at concrete inputs. -/
theorem c6_rewrite_identity_witness :
    replace_links_in_html (some "no rules here") [] = "no rules here" ∧
    replace_links_in_html none [⟨Pattern.lit "a".data, "b".data, none⟩] = "" :=
  ⟨c6_rewrite_identity (some "no rules here") [] (Or.inr rfl),
   c6_rewrite_identity none [⟨Pattern.lit "a".data, "b".data, none⟩] (Or.inl rfl)⟩

/-- C5: `mirror_to_dests` attempts delivery to each resolved destination
exactly once, in store order, whatever the transport returns for each
destination; the trace type carries no exception channel, so per-destination
failures (absorbed by the loop's `try/except`) never reach the caller, and
no destination is retried or rolled back. -/
theorem c5_fanout_isolation (db : List (Int × Int)) (src : Int)
    (send : Int → Except ε Unit) :
    (mirror_to_dests db src send).map Prod.fst = list_mappings_for_source db src :=
  fanoutLoop_map_fst send (list_mappings_for_source db src)

/-- C7: dispatch on a poll post produces a poll `SendSpec` carrying the
question, the options in order, the anonymity and multiple-answers flags, and
the correct-option index and explanation exactly when the poll type is
`"quiz"` — for any other type they are null whatever the input carries. -/
theorem c7_poll_dispatch (rules : List LinkRule) (p : Poll) :
    dispatchNew rules (Content.poll p) = SendSpec.poll (pollSendSpec p) ∧
    (pollSendSpec p).question = p.question ∧
    (pollSendSpec p).options = p.options.map PollOption.text ∧
    (pollSendSpec p).is_anonymous = p.is_anonymous ∧
    (pollSendSpec p).allows_multiple_answers = p.allows_multiple_answers ∧
    (pollSendSpec p).correct_option_id
      = (if p.type = "quiz" then p.correct_option_id else none) ∧
    (pollSendSpec p).explanation
      = (if p.type = "quiz" then p.explanation else none) :=
  ⟨rfl, rfl, rfl, rfl, rfl, rfl, rfl⟩

/-- C9: `add_mapping` is idempotent — under the store's uniqueness invariant
the pair occurs exactly once afterwards, and adding twice equals adding
once. -/
theorem c9_add_mapping_idempotent (db : List (Int × Int)) (s d : Int)
    (h : db.count (s, d) ≤ 1) :
    (add_mapping db s d).count (s, d) = 1 ∧
    add_mapping (add_mapping db s d) s d = add_mapping db s d := by
  by_cases hm : (s, d) ∈ db
  · have h1 : 0 < db.count (s, d) := List.count_pos_iff.mpr hm
    constructor
    · simp only [add_mapping, if_pos hm]
      omega
    · simp only [add_mapping, if_pos hm]
  · have h0 : db.count (s, d) = 0 := List.count_eq_zero.mpr hm
    have hm2 : (s, d) ∈ db ++ [(s, d)] := by simp
    constructor
    · simp only [add_mapping, if_neg hm, List.count_append, h0]
      simp
    · simp only [add_mapping, if_neg hm, if_pos hm2]

/-- witness for `c9_add_mapping_idempotent` at concrete inputs. -/
theorem c9_add_mapping_idempotent_witness :
    (add_mapping [] 1 2).count (1, 2) = 1 ∧
    add_mapping (add_mapping [] 1 2) 1 2 = add_mapping [] 1 2 :=
  c9_add_mapping_idempotent [] 1 2 (by decide)

/-- C10: a new plain-text post is sent with `disable_web_page_preview`
explicitly `False` (previews enabled), while an edited plain-text post is
sent without that argument (transport default); both carry the same
rewritten text, the edited one behind the updated-marker. -/
theorem c10_preview_argument (rules : List LinkRule) (t : String) :
    dispatchNew rules (Content.text t)
      = SendSpec.message (transform_html rules (some t)) (some false) ∧
    dispatchEdited rules (Content.text t)
      = SendSpec.message (updatedMarker ++ transform_html rules (some t)) none :=
  ⟨rfl, rfl⟩

/-- C8: an edited plain-text post is delivered as a new message whose text
is the fixed updated-marker prepended to the same rewritten body a new post
would carry; every other content kind is dispatched exactly as a new post. -/
theorem c8_edited_posts (rules : List LinkRule) (c : Content) :
    (∀ t, c = Content.text t →
      ∃ body, dispatchNew rules c = SendSpec.message body (some false) ∧
        dispatchEdited rules c = SendSpec.message (updatedMarker ++ body) none) ∧
    ((∀ t, c ≠ Content.text t) → dispatchEdited rules c = dispatchNew rules c) := by
  constructor
  · rintro t rfl
    exact ⟨transform_html rules (some t), rfl, rfl⟩
  · intro hne
    cases c with
    | text t => exact absurd rfl (hne t)
    | photo f cap => rfl
    | video f cap => rfl
    | animation f cap => rfl
    | document f cap => rfl
    | audio f cap => rfl
    | voice f cap => rfl
    | video_note f => rfl
    | poll p => rfl
    | other => rfl

/-- witness for `c8_edited_posts` at concrete inputs. -/
theorem c8_edited_posts_witness :
    (∃ body, dispatchNew [] (Content.text "x") = SendSpec.message body (some false) ∧
      dispatchEdited [] (Content.text "x")
        = SendSpec.message (updatedMarker ++ body) none) ∧
    dispatchEdited [] Content.other = dispatchNew [] Content.other :=
  ⟨(c8_edited_posts [] (Content.text "x")).1 "x" rfl,
   (c8_edited_posts [] Content.other).2 (fun _ h => Content.noConfusion h)⟩

/-- C1 (code bug): with one stored link rule and a text post containing a
bare link, the pipeline raises `ValueError` to the platform collaborator:
`get_rules` yields `(pattern, replacement)` pairs, and the 3-way unpacking
in the rewriter's rule loops sits outside the `try:` whose
`except re.error` could not catch a `ValueError` anyway. -/
theorem c1_pipeline_raises :
    on_channel_post_text [(1, 2)]
      [⟨1, Pattern.lit "a.com".data, "b.com".data, none⟩]
      1 (some "see https://a.com/x")
      (fun _ _ => (Except.ok () : Except Unit Unit))
      = Except.error PyErr.valueError := by
  rfl


/-- the last element of a cons cell, as an unconditional `some`. -/
theorem getLast?_cons_eq (a : α) (l : List α) :
    (a :: l).getLast? = some (match l.getLast? with | some b => b | none => a) := by
  induction l generalizing a with
  | nil => rfl
  | cons b bs ih => rw [List.getLast?_cons_cons, ih b]

/-- the rule loop of `replace_a_tag`, from any starting accumulator: the
href slot holds the last matching rule's substitution into the *original*
href, the text slot the last matching rule's display replacement. -/
theorem anchorLoop_characterisation (href : List Char) (rules : List LinkRule) :
    ∀ h0 t0 : List Char,
      rules.foldl (ruleStep href) (h0, t0) =
        ((match (rules.filter (ruleMatches href)).getLast? with
          | some r => applyUrl href r
          | none => h0),
         (match (rules.filter (fun r => ruleMatches href r && r.text_repl.isSome)).getLast? with
          | some r => r.text_repl.getD t0
          | none => t0)) := by
  induction rules with
  | nil => intro h0 t0; rfl
  | cons r rs ih =>
    intro h0 t0
    simp only [List.foldl_cons]
    by_cases hm : ruleMatches href r = true
    · have hf1 : (r :: rs).filter (ruleMatches href) = r :: rs.filter (ruleMatches href) := by
        simp [List.filter_cons, hm]
      cases ht : r.text_repl with
      | none =>
        obtain ⟨q, hp⟩ : ∃ q, r.pattern = Pattern.lit q := by
          cases hq : r.pattern with
          | lit q => exact ⟨q, rfl⟩
          | bad src => rw [ruleMatches, hq] at hm; exact absurd hm (by simp)
        have hc : containsCI q href = true := by rw [ruleMatches, hp] at hm; exact hm
        have hstep : ruleStep href (h0, t0) r = (replaceCI q r.url_repl href, t0) := by
          simp [ruleStep, hp, hc, ht]
        have happ : applyUrl href r = replaceCI q r.url_repl href := by simp [applyUrl, hp]
        have hf2 : (r :: rs).filter (fun x => ruleMatches href x && x.text_repl.isSome)
            = rs.filter (fun x => ruleMatches href x && x.text_repl.isSome) := by
          simp [List.filter_cons, ht]
        rw [hstep, ih (replaceCI q r.url_repl href) t0, hf1, hf2, getLast?_cons_eq]
        cases hl : (rs.filter (ruleMatches href)).getLast? with
        | some r2 => simp
        | none => simp [happ]
      | some t =>
        obtain ⟨q, hp⟩ : ∃ q, r.pattern = Pattern.lit q := by
          cases hq : r.pattern with
          | lit q => exact ⟨q, rfl⟩
          | bad src => rw [ruleMatches, hq] at hm; exact absurd hm (by simp)
        have hc : containsCI q href = true := by rw [ruleMatches, hp] at hm; exact hm
        have hstep : ruleStep href (h0, t0) r = (replaceCI q r.url_repl href, t) := by
          simp [ruleStep, hp, hc, ht]
        have happ : applyUrl href r = replaceCI q r.url_repl href := by simp [applyUrl, hp]
        have hf2 : (r :: rs).filter (fun x => ruleMatches href x && x.text_repl.isSome)
            = r :: rs.filter (fun x => ruleMatches href x && x.text_repl.isSome) := by
          simp [List.filter_cons, hm, ht]
        rw [hstep, ih (replaceCI q r.url_repl href) t, hf1, hf2,
          getLast?_cons_eq, getLast?_cons_eq]
        simp only [Prod.mk.injEq]
        constructor
        · cases hl : (rs.filter (ruleMatches href)).getLast? with
          | some r2 => simp
          | none => simp [happ]
        · cases hl : (rs.filter (fun x => ruleMatches href x && x.text_repl.isSome)).getLast? with
          | some r2 =>
            have hmem : r2 ∈ rs.filter (fun x => ruleMatches href x && x.text_repl.isSome) := by
              obtain ⟨hne, heq⟩ := List.mem_getLast?_eq_getLast (Option.mem_def.mpr hl)
              rw [heq]
              exact List.getLast_mem hne
            have hsome : r2.text_repl.isSome := by
              have hpred := List.of_mem_filter hmem
              exact (Bool.and_elim_right hpred)
            obtain ⟨v, hv⟩ := Option.isSome_iff_exists.mp hsome
            simp [hv]
          | none => simp [ht]
    · have hstep : ruleStep href (h0, t0) r = (h0, t0) := by
        rw [ruleStep.eq_def]
        cases hq : r.pattern with
        | bad src => rfl
        | lit q =>
          have hc : containsCI q href = false := by
            rw [ruleMatches, hq] at hm
            exact Bool.not_eq_true _ ▸ (by simpa using hm)
          simp [hc]
      have hf1 : (r :: rs).filter (ruleMatches href) = rs.filter (ruleMatches href) := by
        simp [List.filter_cons, hm]
      have hf2 : (r :: rs).filter (fun x => ruleMatches href x && x.text_repl.isSome)
          = rs.filter (fun x => ruleMatches href x && x.text_repl.isSome) := by
        simp only [List.filter_cons]
        have : (ruleMatches href r && r.text_repl.isSome) = false := by
          simp [Bool.eq_false_iff.mpr hm]
        simp [this]
      rw [hstep, ih h0 t0, hf1, hf2]

/-- C2 (amended): the anchor pass rewrites an anchor to the substitution of
the *last* rule whose pattern matches the *original* href, applied to the
original href — matching rules are not composed, each substitutes into the
original and the last one wins — while the display text is the text
replacement of the last matching rule that defines one. -/
theorem c2_amended_last_match_wins (rules : List LinkRule)
    (pre href mid text suf : List Char) :
    replace_a_tag rules (ASeg.tag pre href mid text suf)
      = pre ++ lastMatchHref rules href ++ mid ++ lastMatchText rules href text ++ suf := by
  simp only [replace_a_tag, anchorLoop, lastMatchHref, lastMatchText]
  rw [anchorLoop_characterisation href rules href text]

/-- C2 (counterexample): with rule 1 rewriting `a.com` to `b.com` and rule 2
rewriting `a.com` to `c.com`, cumulative composition as the claim states it
yields `b.com` (rule 2 no longer matches the composed output), but the code
emits `c.com`: each matching rule substitutes into the original href and the
last match wins, so the claimed equality fails on this input. -/
theorem c2_counterexample :
    cumulativeHref
        [⟨Pattern.lit "a.com".data, "b.com".data, none⟩,
         ⟨Pattern.lit "a.com".data, "c.com".data, none⟩]
        "http://a.com/x".data
      = "http://b.com/x".data ∧
    replace_links_in_html (some "<a href=\"http://a.com/x\">t</a>")
        [⟨Pattern.lit "a.com".data, "b.com".data, none⟩,
         ⟨Pattern.lit "a.com".data, "c.com".data, none⟩]
      = "<a href=\"http://c.com/x\">t</a>" ∧
    ("<a href=\"http://c.com/x\">t</a>" : String) ≠ "<a href=\"http://b.com/x\">t</a>" :=
  ⟨by decide, by decide, by decide⟩

/-- leading-part matching only uses characters of `s`. -/
theorem startsWithL_mem (p : List Char) :
    ∀ s : List Char, startsWithL p s = true → ∀ x ∈ p, x ∈ s := by
  induction p with
  | nil => intro s _ x hx; exact absurd hx (List.not_mem_nil x)
  | cons a ps ih =>
    intro s hsw x hx
    cases s with
    | nil => exact absurd hsw (by simp [startsWithL])
    | cons c cs =>
      simp only [startsWithL, Bool.and_eq_true, beq_iff_eq] at hsw
      rcases List.mem_cons.mp hx with h | h
      · exact List.mem_cons.mpr (Or.inl (h.trans hsw.1))
      · exact List.mem_cons.mpr (Or.inr (ih cs hsw.2 x h))

/-- a raw-URL match needs a colon. -/
theorem rawStartsHere_colon (s : List Char) :
    rawStartsHere s = true → ':' ∈ s := by
  intro h
  rcases Bool.or_eq_true_iff.mp h with h1 | h1
  · exact startsWithL_mem httpsPat s (Bool.and_elim_left h1) ':' (by decide)
  · exact startsWithL_mem httpPat s (Bool.and_elim_left h1) ':' (by decide)

/-- `repl_raw` never looks at display-text replacements. -/
theorem subStep_clearText (v : List Char) (r : LinkRule) :
    subStep v (clearTextRepl r) = subStep v r := by
  cases hp : r.pattern <;> simp [subStep, clearTextRepl, hp]

/-- the cumulative substitution fold ignores display-text replacements. -/
theorem foldl_subStep_clearText (rules : List LinkRule) :
    ∀ tok : List Char, (rules.map clearTextRepl).foldl subStep tok = rules.foldl subStep tok := by
  induction rules with
  | nil => intro tok; rfl
  | cons r rs ih =>
    intro tok
    simp only [List.map_cons, List.foldl_cons, subStep_clearText]
    exact ih (subStep tok r)

/-- `repl_raw` per segment ignores display-text replacements. -/
theorem repl_raw_clearText (rules : List LinkRule) (seg : RSeg) :
    repl_raw (rules.map clearTextRepl) seg = repl_raw rules seg := by
  cases seg with
  | chunk s => rfl
  | url tok => exact foldl_subStep_clearText rules tok

/-- a string without any raw-URL match passes through the raw pass whole. -/
theorem rawScanAux_no_colon (rules : List LinkRule) :
    ∀ (n : Nat) (s : List Char), (∀ x ∈ s, x ≠ ':') →
      ((rawScanAux n s).map (repl_raw rules)).flatten = s := by
  intro n
  induction n with
  | zero =>
    intro s _
    cases s with
    | nil => rfl
    | cons c cs => simp [rawScanAux, repl_raw]
  | succ m ih =>
    intro s hs
    cases s with
    | nil => rfl
    | cons c cs =>
      have hraw : rawStartsHere (c :: cs) = false := by
        cases hb : rawStartsHere (c :: cs) with
        | false => rfl
        | true => exact absurd rfl (hs ':' (rawStartsHere_colon _ hb))
      simp only [rawScanAux, hraw]
      simp only [Bool.false_eq_true, if_false, List.map_cons, List.flatten_cons, repl_raw]
      rw [ih cs (fun x hx => hs x (List.mem_cons.mpr (Or.inr hx)))]
      rfl

/-- C3 (amended): the raw-URL pass never applies display-text replacements
— its output is invariant under erasing them from every rule — and it
rewrites nothing in a string containing no `:` (hence no `http(s)://`
token); it is not restricted to URLs outside anchors: as the counterexample
shows, it also rewrites hrefs inside anchors produced by the anchor pass. -/
theorem c3_amended_raw_pass (rules : List LinkRule) (s : List Char) :
    rawPass (rules.map clearTextRepl) s = rawPass rules s ∧
    ((∀ x ∈ s, x ≠ ':') → rawPass rules s = s) := by
  constructor
  · simp only [rawPass]
    congr 1
    exact List.map_congr_left (fun seg _ => repl_raw_clearText rules seg)
  · intro hnc
    exact rawScanAux_no_colon rules s.length s hnc

/-- witness for `c3_amended_raw_pass` at concrete inputs. -/
theorem c3_amended_raw_pass_witness :
    rawPass ([⟨Pattern.lit "a".data, "b".data, some "t".data⟩].map clearTextRepl) ['x', 'y']
      = rawPass [⟨Pattern.lit "a".data, "b".data, some "t".data⟩] ['x', 'y'] ∧
    rawPass [⟨Pattern.lit "a".data, "b".data, some "t".data⟩] ['x', 'y'] = ['x', 'y'] :=
  ⟨(c3_amended_raw_pass [⟨Pattern.lit "a".data, "b".data, some "t".data⟩] ['x', 'y']).1,
   (c3_amended_raw_pass [⟨Pattern.lit "a".data, "b".data, some "t".data⟩] ['x', 'y']).2
     (by decide)⟩

/-- C3 (counterexample): with rules `a.com → b.com` then `b.com → c.com`,
the anchor pass leaves the anchor's href at `b.com` (rule 2 does not match
the original), but the raw-URL pass then matches the
`https?://[^\s<]+` token *inside* the anchor's `href="..."` attribute and
rewrites it again to `c.com`: the raw pass does re-enter anchors, contrary
to the claim. -/
theorem c3_counterexample :
    anchorPass
        [⟨Pattern.lit "a.com".data, "b.com".data, none⟩,
         ⟨Pattern.lit "b.com".data, "c.com".data, none⟩]
        "<a href=\"http://a.com/x\">t</a>".data
      = "<a href=\"http://b.com/x\">t</a>".data ∧
    replace_links_in_html (some "<a href=\"http://a.com/x\">t</a>")
        [⟨Pattern.lit "a.com".data, "b.com".data, none⟩,
         ⟨Pattern.lit "b.com".data, "c.com".data, none⟩]
      = "<a href=\"http://c.com/x\">t</a>" ∧
    ("<a href=\"http://c.com/x\">t</a>" : String) ≠ "<a href=\"http://b.com/x\">t</a>" :=
  ⟨by decide, by decide, by decide⟩


/-- binding a succeeded `Except` runs the continuation. -/
theorem ok_bind (a : α) (f : α → Except ε β) : (Except.ok a).bind f = f a := rfl

/-- an effectful fold whose step never raises equals the pure fold. -/
theorem foldlExcept_ok (g : σ → α → σ) (f : σ → α → Except ε σ)
    (hf : ∀ s a, f s a = Except.ok (g s a)) :
    ∀ (l : List α) (init : σ), foldlExcept f init l = Except.ok (l.foldl g init) := by
  intro l
  induction l with
  | nil => intro init; rfl
  | cons a as ih =>
    intro init
    simp only [foldlExcept, hf init a, List.foldl_cons]
    exact ih (g init a)

/-- an effectful map whose function never raises equals the pure map. -/
theorem mapExcept_ok (g : α → β) (f : α → Except ε β)
    (hf : ∀ a, f a = Except.ok (g a)) :
    ∀ l : List α, mapExcept f l = Except.ok (l.map g) := by
  intro l
  induction l with
  | nil => rfl
  | cons a as ih => simp only [mapExcept, hf a, ih, List.map_cons]

/-- with well-formed triples the dynamic anchor-rule loop never raises and
computes the pure loop. -/
theorem anchorLoopE_triples (rules : List LinkRule) (href text : List Char) :
    anchorLoopE (rules.map LinkRule.toTuple) href text
      = Except.ok (anchorLoop rules href text) := by
  simp only [anchorLoopE, anchorLoop]
  generalize (href, text) = init
  induction rules generalizing init with
  | nil => rfl
  | cons r rs ih =>
    simp only [List.map_cons, List.foldl_cons, foldlExcept, LinkRule.toTuple, unpack3]
    exact ih (ruleStep href init r)

/-- with well-formed triples `replace_a_tag` never raises. -/
theorem replace_a_tag_E_triples (rules : List LinkRule) (seg : ASeg) :
    replace_a_tag_E (rules.map LinkRule.toTuple) seg
      = Except.ok (replace_a_tag rules seg) := by
  cases seg with
  | chunk s => rfl
  | tag pre href mid text suf =>
    simp only [replace_a_tag_E, anchorLoopE_triples, replace_a_tag]

/-- with well-formed triples `repl_raw` never raises. -/
theorem repl_raw_E_triples (rules : List LinkRule) (seg : RSeg) :
    repl_raw_E (rules.map LinkRule.toTuple) seg
      = Except.ok (repl_raw rules seg) := by
  cases seg with
  | chunk s => rfl
  | url tok =>
    simp only [repl_raw_E, repl_raw]
    induction rules generalizing tok with
    | nil => rfl
    | cons r rs ih =>
      simp only [List.map_cons, List.foldl_cons, foldlExcept, LinkRule.toTuple, unpack3]
      exact ih (subStep tok r)

/-- with well-formed triples `replace_links_in_html` never raises and
computes the pure rewrite. -/
theorem replace_links_E_triples (html : Option String) (rules : List LinkRule) :
    replace_links_in_html_E html (rules.map LinkRule.toTuple)
      = Except.ok (replace_links_in_html html rules) := by
  by_cases hg : html.getD "" = "" ∨ rules = []
  · have hg2 : html.getD "" = "" ∨ rules.map LinkRule.toTuple = [] := by
      rcases hg with h | h
      · exact Or.inl h
      · exact Or.inr (by rw [h]; rfl)
    simp only [replace_links_in_html_E, replace_links_in_html]
    rw [if_pos hg2, if_pos hg]
  · have hg2 : ¬(html.getD "" = "" ∨ rules.map LinkRule.toTuple = []) := by
      rcases not_or.mp hg with ⟨h1, h2⟩
      intro hc
      rcases hc with h | h
      · exact h1 h
      · exact h2 (List.map_eq_nil_iff.mp h)
    simp only [replace_links_in_html_E, replace_links_in_html]
    rw [if_neg hg2, if_neg hg]
    rw [mapExcept_ok (replace_a_tag rules) _ (replace_a_tag_E_triples rules), ok_bind]
    rw [mapExcept_ok (repl_raw rules) _ (repl_raw_E_triples rules), ok_bind]
    rfl

/-- inserting a rule with a non-compiling pattern between two rules changes
nothing in the pure rewrite: both loops skip it. -/
theorem bad_rule_skipped (html : Option String) (r1 r2 : LinkRule)
    (b u : List Char) (t : Option (List Char)) :
    replace_links_in_html html [r1, ⟨Pattern.bad b, u, t⟩, r2]
      = replace_links_in_html html [r1, r2] := by
  by_cases hh : html.getD "" = ""
  · simp only [replace_links_in_html]
    rw [if_pos (Or.inl hh), if_pos (Or.inl hh)]
  · simp only [replace_links_in_html]
    rw [if_neg (by simp [hh]), if_neg (by simp [hh])]
    have hseg : ∀ seg, replace_a_tag [r1, ⟨Pattern.bad b, u, t⟩, r2] seg
        = replace_a_tag [r1, r2] seg := by
      intro seg
      cases seg with
      | chunk s => rfl
      | tag pre href mid text suf => rfl
    have hrseg : ∀ seg, repl_raw [r1, ⟨Pattern.bad b, u, t⟩, r2] seg
        = repl_raw [r1, r2] seg := by
      intro seg
      cases seg with
      | chunk s => rfl
      | url tok => rfl
    have hap : anchorPass [r1, ⟨Pattern.bad b, u, t⟩, r2] (html.getD "").data
        = anchorPass [r1, r2] (html.getD "").data := by
      simp only [anchorPass]
      exact congrArg List.flatten (List.map_congr_left (fun seg _ => hseg seg))
    have hrp : ∀ s, rawPass [r1, ⟨Pattern.bad b, u, t⟩, r2] s = rawPass [r1, r2] s := by
      intro s
      simp only [rawPass]
      exact congrArg List.flatten (List.map_congr_left (fun seg _ => hrseg seg))
    rw [hap, hrp]

/-- C4: a rule whose pattern fails to compile, placed between two valid
rules, is skipped for that invocation only: the call returns normally (no
exception) and the result is exactly the rewrite under the two valid rules
alone — both are still applied. -/
theorem c4_invalid_rule_between (html : Option String) (r1 r2 : LinkRule)
    (b u : List Char) (t : Option (List Char)) :
    replace_links_in_html_E html
        [r1.toTuple, RuleTuple.triple (Pattern.bad b) u t, r2.toTuple]
      = Except.ok (replace_links_in_html html [r1, r2]) := by
  have h1 : [r1.toTuple, RuleTuple.triple (Pattern.bad b) u t, r2.toTuple]
      = [r1, ⟨Pattern.bad b, u, t⟩, r2].map LinkRule.toTuple := rfl
  rw [h1, replace_links_E_triples, bad_rule_skipped]
